import Mathlib

/- Verification of the bbengfort/toolkit command line scripts: a shallow
embedding of bin/pproc.py (the subprocess multiplexer), bin/requires.py
(the requirements merger) and bin/pwgen.py (the password generator),
together with proofs about the embedded definitions.

Modelling conventions:
  - Python child output is modelled at line granularity: a child process
    produces a list of text fragments (lines); readline pops one fragment,
    read-to-end returns all buffered fragments.  This matches the text-mode
    (universal_newlines, bufsize 1) pipes the script opens.
  - The nondeterminism of the OS (when children flush lines and when they
    exit) is an explicit schedule parameter: per while-loop iteration, per
    pid, how many pending lines reach the pipe and whether the child exits.
  - Python name lookup (local scope, then module globals, then builtins) is
    modelled by explicit lists of the names actually bound in each module;
    a failed lookup is a NameError value.
-/

namespace Toolkit

/-- Python runtime errors relevant to the claims about these scripts. -/
inductive PyErr where
  | nameError
deriving DecidableEq, Repr

/-- Errors raised by shlex.split: ValueError with these two messages.  The
spec names the unterminated-quote failure MalformedCommandError. -/
inductive TokErr where
  | noClosingQuotation
  | noEscapedCharacter
deriving DecidableEq, Repr

/-- Python builtin names that the scripts could reach after local and
module-global lookup fails (a representative list; crucially it contains
neither of the unbound names p and line). -/
def pyBuiltins : List String :=
  ["print", "repr", "format", "len", "list", "dict", "sorted", "open",
   "str", "int", "float", "bool", "isinstance", "tuple", "Exception",
   "ValueError", "IndexError", "getattr", "setattr", "range", "min", "max"]

/-- Module-level names of bin/pproc.py once the module has loaded. -/
def pprocGlobals : List String :=
  ["shlex", "argparse", "select", "Popen", "PIPE",
   "DESCRIPTION", "EPILOG", "VERSION", "tokenize", "pprint", "execute"]

/-- Module-level names of bin/requires.py once the module has loaded. -/
def requiresGlobals : List String :=
  ["os", "pip", "sys", "shutil", "argparse", "freeze", "pyvers",
   "DESCRIPTION", "EPILOG", "VERSION", "ARGUMENTS",
   "reqargs", "operators", "parse", "packages", "requires", "main"]

/-- Lookup of a name that the compiler resolved as a global load: module
globals first, then builtins. -/
def resolvesGlobal (globals : List String) (n : String) : Bool :=
  globals.contains n || pyBuiltins.contains n

/- ------------------------------------------------------------------ -/
/- shlex.split (posix mode, whitespace_split), used by pproc.tokenize. -/
/- ------------------------------------------------------------------ -/

/-- The single-quote character. -/
def squote : Char := Char.ofNat 39

/-- The double-quote character. -/
def dquote : Char := Char.ofNat 34

/-- The backslash character. -/
def bslash : Char := Char.ofNat 92

/-- shlex.whitespace: space, tab, carriage return, newline. -/
def shlexWhite : List Char := [Char.ofNat 32, Char.ofNat 9, Char.ofNat 13, Char.ofNat 10]

/-- Lexer state of shlex: outside quotes, inside single quotes, inside
double quotes. -/
inductive ShState where
  | normal
  | inSingle
  | inDouble
deriving DecidableEq, Repr

/-- Append a character to the token under construction (starting the token
if none exists yet). -/
def pushTok (tok : Option String) (c : Char) : Option String :=
  some ((tok.getD "").push c)

/-- The shlex.split state machine in posix whitespace_split mode, as used
by shlex.split: whitespace separates tokens; single quotes protect
everything; inside double quotes a backslash escapes only the double quote
and the backslash itself; outside quotes a backslash escapes any next
character.  End of input inside a quote raises ValueError
"No closing quotation"; end of input right after a backslash raises
ValueError "No escaped character". -/
def shlexAux : List Char → ShState → Option String → Except TokErr (List String)
  | [], .normal, none => .ok []
  | [], .normal, some t => .ok [t]
  | [], .inSingle, _ => .error .noClosingQuotation
  | [], .inDouble, _ => .error .noClosingQuotation
  | c :: cs, .normal, tok =>
    if shlexWhite.contains c then
      match tok with
      | none => shlexAux cs .normal none
      | some t =>
        match shlexAux cs .normal none with
        | .error e => .error e
        | .ok rest => .ok (t :: rest)
    else if c = squote then shlexAux cs .inSingle (some (tok.getD ""))
    else if c = dquote then shlexAux cs .inDouble (some (tok.getD ""))
    else if c = bslash then
      match cs with
      | [] => .error .noEscapedCharacter
      | d :: ds => shlexAux ds .normal (pushTok tok d)
    else shlexAux cs .normal (pushTok tok c)
  | c :: cs, .inSingle, tok =>
    if c = squote then shlexAux cs .normal (some (tok.getD ""))
    else shlexAux cs .inSingle (pushTok tok c)
  | c :: cs, .inDouble, tok =>
    if c = dquote then shlexAux cs .normal (some (tok.getD ""))
    else if c = bslash then
      match cs with
      | [] => .error .noEscapedCharacter
      | d :: ds =>
        if d = dquote || d = bslash then shlexAux ds .inDouble (pushTok tok d)
        else shlexAux ds .inDouble (pushTok (pushTok tok bslash) d)
    else shlexAux cs .inDouble (pushTok tok c)

/-- shlex.split on one command string. -/
def shlexSplit (s : String) : Except TokErr (List String) :=
  shlexAux s.toList .normal none

/-- Effect of list(...) over an Except-producing map: stops at the first
error, exactly like list(tokenize(commands)) in pproc.execute, which
forces the tokenize generator and lets the first ValueError propagate. -/
def mapME {α β ε : Type} (f : α → Except ε β) : List α → Except ε (List β)
  | [] => .ok []
  | a :: l =>
    match f a with
    | .error e => .error e
    | .ok b =>
      match mapME f l with
      | .error e => .error e
      | .ok bs => .ok (b :: bs)

/-- commands = list(tokenize(commands)) at pproc.py line 54: tokenize
yields shlex.split(command) for each command. -/
def tokenizeAll (commands : List String) : Except TokErr (List (List String)) :=
  mapME shlexSplit commands

/- ------------------------------------------------------- -/
/- The pproc.execute process table and while loop, 74 - 85. -/
/- ------------------------------------------------------- -/

/-- One tracked child process: its pid, the lines it has not yet written
to its pipe, the lines sitting unread in the pipe, and whether the OS has
recorded its exit (p.poll() is not None). -/
structure ProcState where
  pid : Nat
  pending : List String
  buf : List String
  exited : Bool
deriving DecidableEq, Repr

/-- Concatenation of a list of text fragments. -/
def concatAll : List String → String
  | [] => ""
  | s :: rest => s ++ concatAll rest

/-- The text this child will still deliver: what is buffered in the pipe
followed by what it has not yet written. -/
def remOut (p : ProcState) : String :=
  concatAll p.buf ++ concatAll p.pending

/-- Environment step for one child between two poll iterations: the child
moves some of its pending lines into the pipe and may then exit (a child
can only exit after it has written everything it will ever write). -/
def envStepProc (act : Nat × Bool) (p : ProcState) : ProcState :=
  let n := min act.1 p.pending.length
  { pid := p.pid
    pending := p.pending.drop n
    buf := p.buf ++ p.pending.take n
    exited := p.exited || (act.2 && (p.pending.drop n).isEmpty) }

/-- The removal pass of pproc.execute lines 76 - 80:

  for p in procs:
      if p.poll() is not None:
          print(p.stdout.read(), end='')
          p.stdout.close()
          procs.remove(p)

with faithful CPython list-iterator semantics: procs.remove(p) shifts the
remaining elements left while the iterator index still advances, so the
element immediately after a removed one is skipped by this pass (it is
kept, unexamined).  Draining an exited process prints its whole remaining
buffer in one print call.  Returns the surviving list and the printed
(pid, fragment) pairs in print order. -/
def removePass : List ProcState → List ProcState × List (Nat × String)
  | [] => ([], [])
  | p :: rest =>
    if p.exited then
      match rest with
      | [] => ([], [(p.pid, concatAll p.buf)])
      | q :: rest2 =>
        let r := removePass rest2
        (q :: r.1, (p.pid, concatAll p.buf) :: r.2)
    else
      let r := removePass rest
      (p :: r.1, r.2)

/-- select readiness of a stream: data is buffered, or the writer has
exited so the read end is at end of file. -/
def isReady (p : ProcState) : Bool := !p.buf.isEmpty || p.exited

/-- Effect of f.readline() on a ready stream: pop one buffered line (at
end of file readline returns the empty string and the buffer stays empty). -/
def readlineUpd (p : ProcState) : ProcState :=
  if isReady p then { p with buf := p.buf.tail } else p

/-- The readiness pass of pproc.execute lines 83 - 85: select over the
streams of every process still in procs, then one readline per ready
stream, each printed with end=''. -/
def readPass (l : List ProcState) : List ProcState × List (Nat × String) :=
  (l.map readlineUpd, (l.filter isReady).map (fun p => (p.pid, p.buf.headD "")))

/-- One iteration of the while loop at pproc.execute lines 74 - 85: the
environment acts on every child, then the removal pass runs, then select
and the readline pass run on the survivors. -/
def loopIter (act : Nat → Nat × Bool) (procs : List ProcState) :
    List ProcState × List (Nat × String) :=
  let procs1 := procs.map (fun p => envStepProc (act p.pid) p)
  let r2 := removePass procs1
  let r3 := readPass r2.1
  (r3.1, r2.2 ++ r3.2)

/-- The while loop itself, driven by a finite schedule of environment
actions (one per iteration).  Returns none if the schedule is exhausted
while children remain, otherwise the printed fragments in order together
with the final (necessarily empty) process list. -/
def execLoopF : List (Nat → Nat × Bool) → List ProcState →
    Option (List (Nat × String) × List ProcState)
  | _, [] => some ([], [])
  | [], _ :: _ => none
  | act :: sched, p :: ps =>
    let st := loopIter act (p :: ps)
    match execLoopF sched st.1 with
    | none => none
    | some r => some (st.2 ++ r.1, r.2)

/-- Base value for the OS-assigned pids of the spawned children (the model
numbers children basePid, basePid+1, ... in spawn order). -/
def basePid : Nat := 1000

/-- Whether Popen(argv) succeeds: the executable must exist.  avail is the
set of resolvable executable names. -/
def spawnOk (avail : List String) (argv : List String) : Bool :=
  match argv with
  | [] => false
  | exe :: _ => avail.contains exe

/-- The list comprehension procs = [Popen(cmd, **kwds) for cmd in commands]
at pproc.py line 71: commands are spawned left to right; the first failing
Popen raises, aborting the comprehension, so the children already created
stay running but the loop is never entered and later commands are never
spawned.  Returns the pids created (in order) and whether every spawn
succeeded. -/
def spawnAllFrom (avail : List String) : Nat → List (List String) → List Nat × Bool
  | _, [] => ([], true)
  | i, argv :: rest =>
    if spawnOk avail argv then
      let r := spawnAllFrom avail (i + 1) rest
      ((basePid + i) :: r.1, r.2)
    else ([], false)

/-- spawnAllFrom starting at the first pid. -/
def spawnAll (avail : List String) (cmds : List (List String)) : List Nat × Bool :=
  spawnAllFrom avail 0 cmds

/-- Number of commands before the first failing spawn. -/
def okPrefixLen (avail : List String) : List (List String) → Nat
  | [] => 0
  | argv :: rest => if spawnOk avail argv then okPrefixLen avail rest + 1 else 0

/-- Freshly spawned process table: child i has pid basePid + i, will
eventually write the lines behavior i, has an empty pipe and has not
exited. -/
def initProcs (behavior : Nat → List String) (n : Nat) : List ProcState :=
  (List.range n).map
    (fun i => { pid := basePid + i, pending := behavior i, buf := [], exited := false })

/- ------------------------------------------------- -/
/- repr rendering used by the debug branch, line 59.  -/
/- ------------------------------------------------- -/

/-- Python repr of one character inside a string literal quoted by qc
(covers the printable characters and the common escapes). -/
def pyStrReprChar (qc c : Char) : String :=
  if c = bslash then String.mk [bslash, bslash]
  else if c = qc then String.mk [bslash, qc]
  else if c = Char.ofNat 10 then String.mk [bslash, Char.ofNat 110]
  else if c = Char.ofNat 13 then String.mk [bslash, Char.ofNat 114]
  else if c = Char.ofNat 9 then String.mk [bslash, Char.ofNat 116]
  else String.singleton c

/-- Python repr of a string: single-quoted, unless the string contains a
single quote and no double quote, in which case it is double-quoted. -/
def pyStrRepr (s : String) : String :=
  let qc := if s.toList.contains squote && !(s.toList.contains dquote) then dquote else squote
  String.singleton qc ++ concatAll (s.toList.map (pyStrReprChar qc)) ++ String.singleton qc

/-- Python repr of a list of strings, as printed by print(repr(command)). -/
def pyListRepr (l : List String) : String :=
  "[" ++ String.intercalate ", " (l.map pyStrRepr) ++ "]"

/- -------------------------------------- -/
/- pproc.execute as a whole, lines 52-85.  -/
/- -------------------------------------- -/

/-- Observable outcome of one call of pproc.execute:
  - malformed: tokenization raised before anything else happened;
  - debugged: the debug branch printed one repr line per command and
    returned (the program then exits 0);
  - spawnFailed: a Popen raised; the pids listed were already created,
    the loop never ran, the exception propagates (the program exits
    non-zero via parser.error);
  - incomplete: the model schedule ended before the loop did;
  - completed: the loop finished; spawned lists the created pids and out
    the printed (pid, fragment) pairs in print order. -/
inductive ExecOutcome where
  | malformed
  | debugged (lines : List String)
  | spawnFailed (spawned : List Nat)
  | incomplete (spawned : List Nat)
  | completed (spawned : List Nat) (out : List (Nat × String))
deriving DecidableEq, Repr

/-- pproc.execute lines 52 - 85: tokenize every command (line 54), print
and return in debug mode (lines 57 - 60), spawn every command (line 71),
then run the poll loop (lines 74 - 85). -/
def execute (avail : List String) (behavior : Nat → List String)
    (sched : List (Nat → Nat × Bool)) (commands : List String) (debug : Bool) :
    ExecOutcome :=
  match tokenizeAll commands with
  | .error _ => .malformed
  | .ok toks =>
    if debug then .debugged (toks.map pyListRepr)
    else
      let sp := spawnAll avail toks
      if sp.2 then
        match execLoopF sched (initProcs behavior toks.length) with
        | none => .incomplete sp.1
        | some r => .completed sp.1 r.1
      else .spawnFailed sp.1

/-- Concatenation of the fragments of the combined output that were
printed from the stream of the given pid, in print order. -/
def emittedFor (pid : Nat) : List (Nat × String) → String
  | [] => ""
  | pr :: rest => if pr.1 = pid then pr.2 ++ emittedFor pid rest else emittedFor pid rest

/-- The tag format of pproc.pprint lines 46 - 49. -/
def pprintTag (pid : Nat) (s : String) : String :=
  "[" ++ toString pid ++ "] out: " ++ s

/-- pproc.pprint lines 46 - 49.  Its body evaluates
"[...] out: ...".format(p.pid, p.stdout.read()); the name p is never
assigned inside pprint (the parameter is proc), so CPython compiles it as
a global load, which fails: the call raises NameError unconditionally.
The ok branch below is unreachable and its value irrelevant. -/
def pprint (proc : ProcState) : Except PyErr String :=
  if resolvesGlobal pprocGlobals "p" then
    .ok (pprintTag proc.pid (concatAll proc.buf))
  else .error .nameError

/-- Whether the first list is an initial run of the second. -/
def leadsWith : List Char → List Char → Bool
  | [], _ => true
  | _ :: _, [] => false
  | c :: cs, d :: ds => c = d && leadsWith cs ds

/-- Python str.startswith. -/
def pyStartsWith (s pre : String) : Bool := leadsWith pre.toList s.toList

/-- Whether the needle occurs somewhere in the haystack. -/
def subOccurs (needle : List Char) : List Char → Bool
  | [] => needle.isEmpty
  | c :: cs => leadsWith needle (c :: cs) || subOccurs needle cs

/-- Python substring containment (the in operator on strings). -/
def containsSub (s sub : String) : Bool := subOccurs sub.toList s.toList

/-- The text before the first occurrence of sub in s (all of s when sub
does not occur): Python s.split(sub, 1)[0] for a nonempty separator. -/
def beforeFirstAux (needle : List Char) : List Char → List Char
  | [] => []
  | c :: cs => if leadsWith needle (c :: cs) then [] else c :: beforeFirstAux needle cs

/-- beforeFirstAux packaged on strings. -/
def beforeFirst (s sub : String) : String := String.mk (beforeFirstAux sub.toList s.toList)

/-- Python str.strip whitespace characters. -/
def isSpaceChar (c : Char) : Bool :=
  c = Char.ofNat 32 || c = Char.ofNat 9 || c = Char.ofNat 10 || c = Char.ofNat 13 ||
  c = Char.ofNat 11 || c = Char.ofNat 12

/-- Python str.strip(): drop whitespace from both ends. -/
def pyStrip (s : String) : String :=
  String.mk (((s.toList.dropWhile isSpaceChar).reverse.dropWhile isSpaceChar).reverse)

/-- Whether a printed fragment carries the pid of its originating process
anywhere in its text (the weakest possible notion of being pid-tagged). -/
def taggedWithPid (pid : Nat) (s : String) : Bool :=
  containsSub s (toString pid)

/- -------------------------- -/
/- requires.py parse, 71 - 88. -/
/- -------------------------- -/

/-- Version operators recognised by requires.parse, in source order. -/
def operators : List String := ["==", ">=", ">", "!=", "~=", "<", "<="]

/-- requires.parse lines 71 - 88.  Both editable branches read the name
line, which is not a local of parse (the parameter is dep, and line is a
local of the separate function requires) and not a module global of
requires.py, so CPython compiles a global load that raises NameError.
Non-editable dependencies are split at the first version operator that
occurs in them: the name is the stripped text before the operator. -/
def parse (dep : String) : Except PyErr (String × String) :=
  if pyStartsWith dep "-e" || pyStartsWith dep "--editable" then
    if resolvesGlobal requiresGlobals "line" then
      .ok ("", dep)
    else .error .nameError
  else
    match operators.find? (fun op => containsSub dep op) with
    | some op => .ok (pyStrip (beforeFirst dep op), dep)
    | none => .ok (dep, dep)

/- --------------------------------------------------- -/
/- pwgen.py: encode_password and Generate.handle.       -/
/- --------------------------------------------------- -/

/-- Truncation to 32 bits. -/
def w32 (n : Nat) : Nat := n % 4294967296

/-- 32-bit rotate right (arguments below are always less than 2^32). -/
def rotr32 (k x : Nat) : Nat := w32 ((x >>> k) ||| (x <<< (32 - k)))

/-- Logical shift right. -/
def shr32 (k x : Nat) : Nat := x >>> k

/-- The SHA-256 round constants (FIPS 180-4), modelling hashlib.sha256. -/
def sha256K : List Nat :=
  [1116352408, 1899447441, 3049323471, 3921009573,
   961987163, 1508970993, 2453635748, 2870763221,
   3624381080, 310598401, 607225278, 1426881987,
   1925078388, 2162078206, 2614888103, 3248222580,
   3835390401, 4022224774, 264347078, 604807628,
   770255983, 1249150122, 1555081692, 1996064986,
   2554220882, 2821834349, 2952996808, 3210313671,
   3336571891, 3584528711, 113926993, 338241895,
   666307205, 773529912, 1294757372, 1396182291,
   1695183700, 1986661051, 2177026350, 2456956037,
   2730485921, 2820302411, 3259730800, 3345764771,
   3516065817, 3600352804, 4094571909, 275423344,
   430227734, 506948616, 659060556, 883997877,
   958139571, 1322822218, 1537002063, 1747873779,
   1955562222, 2024104815, 2227730452, 2361852424,
   2428436474, 2756734187, 3204031479, 3329325298]

/-- The SHA-256 initial hash value. -/
def sha256H0 : List Nat :=
  [1779033703, 3144134277, 1013904242, 2773480762,
   1359893119, 2600822924, 528734635, 1541459225]

/-- Big-endian bytes of a number, in the given width. -/
def toBytesBE (len n : Nat) : List Nat :=
  (List.range len).map (fun i => (n >>> (8 * (len - 1 - i))) % 256)

/-- SHA-256 padding: a 0x80 byte, zeros to 56 mod 64, then the bit length
as eight big-endian bytes. -/
def sha256Pad (msg : List Nat) : List Nat :=
  let l := msg.length
  let zeros := (119 - l % 64) % 64
  msg ++ [128] ++ List.replicate zeros 0 ++ toBytesBE 8 (8 * l)

/-- Group bytes into big-endian 32-bit words. -/
def bytesToWords : List Nat → List Nat
  | a :: b :: c :: d :: rest => (((a * 256 + b) * 256 + c) * 256 + d) :: bytesToWords rest
  | _ => []

/-- Split a byte list into 64-byte blocks. -/
def chunks64 : List Nat → List (List Nat)
  | [] => []
  | a :: rest => ((a :: rest).take 64) :: chunks64 ((a :: rest).drop 64)
termination_by l => l.length
decreasing_by simp; omega

/-- SHA-256 sigma functions. -/
def smallSigma0 (x : Nat) : Nat := (rotr32 7 x) ^^^ (rotr32 18 x) ^^^ (shr32 3 x)

/-- SHA-256 sigma functions. -/
def smallSigma1 (x : Nat) : Nat := (rotr32 17 x) ^^^ (rotr32 19 x) ^^^ (shr32 10 x)

/-- SHA-256 Sigma functions. -/
def bigSigma0 (x : Nat) : Nat := (rotr32 2 x) ^^^ (rotr32 13 x) ^^^ (rotr32 22 x)

/-- SHA-256 Sigma functions. -/
def bigSigma1 (x : Nat) : Nat := (rotr32 6 x) ^^^ (rotr32 11 x) ^^^ (rotr32 25 x)

/-- Extend the 16 message words to the 64-entry message schedule. -/
def extendSchedule (w : List Nat) : List Nat :=
  (List.range 48).foldl
    (fun acc _ =>
      let i := acc.length
      acc ++ [w32 (smallSigma1 (acc.getD (i - 2) 0) + acc.getD (i - 7) 0 +
                   smallSigma0 (acc.getD (i - 15) 0) + acc.getD (i - 16) 0)])
    w

/-- One SHA-256 compression round on the eight-word working state. -/
def sha256Round (st : List Nat) (kw : Nat × Nat) : List Nat :=
  match st with
  | [a, b, c, d, e, f, g, h] =>
    let ch := (e &&& f) ^^^ ((4294967295 - e) &&& g)
    let t1 := w32 (h + bigSigma1 e + ch + kw.1 + kw.2)
    let maj := (a &&& b) ^^^ (a &&& c) ^^^ (b &&& c)
    let t2 := w32 (bigSigma0 a + maj)
    [w32 (t1 + t2), a, b, c, w32 (d + t1), e, f, g]
  | _ => st

/-- Process one 64-byte block. -/
def sha256Block (h : List Nat) (block : List Nat) : List Nat :=
  let w := extendSchedule (bytesToWords block)
  let st := (sha256K.zip w).foldl sha256Round h
  (h.zip st).map (fun p => w32 (p.1 + p.2))

/-- hashlib.sha256(...).digest() over a byte string. -/
def sha256Bytes (msg : List Nat) : List Nat :=
  let hs := (chunks64 (sha256Pad msg)).foldl sha256Block sha256H0
  hs.foldr (fun h acc => toBytesBE 4 h ++ acc) []

/-- The base64 alphabet. -/
def b64Alphabet : List Char :=
  "ABCDEFGHIJKLMNOPQRSTUVWXYZabcdefghijklmnopqrstuvwxyz0123456789+/".toList

/-- One base64 digit. -/
def b64Char (n : Nat) : Char := b64Alphabet.getD n (Char.ofNat 65)

/-- base64.b64encode over bytes (Char.ofNat 61 is the padding =). -/
def base64Encode : List Nat → String
  | [] => ""
  | [a] =>
    String.mk [b64Char (a / 4), b64Char (a % 4 * 16), Char.ofNat 61, Char.ofNat 61]
  | [a, b] =>
    String.mk [b64Char (a / 4), b64Char (a % 4 * 16 + b / 16), b64Char (b % 16 * 4), Char.ofNat 61]
  | a :: b :: c :: rest =>
    String.mk [b64Char (a / 4), b64Char (a % 4 * 16 + b / 16),
               b64Char (b % 16 * 4 + c / 64), b64Char (c % 64)] ++ base64Encode rest

/-- Bytes of a Python 2 str (modelled as the UTF-8 bytes of the text). -/
def strBytes (s : String) : List Nat := s.toUTF8.toList.map (fun b => b.toNat)

/-- pwgen Utilities.encode_password lines 121 - 128: base64 of the SHA-256
digest of the password string. -/
def encodePassword (password : String) : String :=
  base64Encode (sha256Bytes (strBytes password))

/-- pwgen Generate.handle lines 155 - 174 with the interactive and system
inputs made explicit: domain is args.domain[0], salt is args.salt, master
is what get_password returned, deviceUUID is what get_device would return,
device is args.device.  The base password is domain, salt and master
concatenated; with the device flag the device UUID is appended; the result
is encode_password of that string. -/
def generateHandle (domain salt master deviceUUID : String) (device : Bool) : String :=
  let password := domain ++ salt ++ master
  let password := if device then password ++ deviceUUID else password
  encodePassword password

/-- The base string as the spec describes it: the concatenation of domain,
salt, master password and, when the device flag is set, the device UUID. -/
def baseStringSpec (domain salt master deviceUUID : String) (device : Bool) : String :=
  domain ++ salt ++ master ++ (if device then deviceUUID else "")

/-- The pids of a process table, in order. -/
def pids (l : List ProcState) : List Nat := l.map ProcState.pid

/-- Invariant of the loop: a child whose exit has been detected has
already written everything it will ever write. -/
def Inv (p : ProcState) : Prop := p.exited = true → p.pending = []

/- ----------------------------------------------- -/
/- Concrete witness inputs used by the theorems.    -/
/- ----------------------------------------------- -/

/-- A command string with an unterminated single quote. -/
def badQuoteCmd : String := "echo " ++ String.singleton squote ++ "unterminated"

/-- The second command of the debug example in the spec:
echo, then a b in single quotes, then c. -/
def debugCmd2 : String :=
  "echo " ++ String.singleton squote ++ "a b" ++ String.singleton squote ++ " c"

/-- Behavior used by the single-child witness run: the only child prints
one line. -/
def oneChildBehavior : Nat → List String := fun _ => ["hello\n"]

/-- Schedule for the single-child witness run: in the first iteration the
child writes its line and exits; the loop then drains and removes it. -/
def oneChildSched : List (Nat → Nat × Bool) := [fun _ => (1, true)]

/-- Behavior for the two-child attribution run: both children print the
same line. -/
def sameBehavior : Nat → List String := fun _ => ["same\n"]

/-- Schedule for the two-child attribution run: both children write and
exit in the first iteration; the second iteration finishes the drain. -/
def sameSched : List (Nat → Nat × Bool) := [fun _ => (1, true), fun _ => (0, false)]

/- ----------------------------------------------- -/
/- Supporting lemmas.                               -/
/- ----------------------------------------------- -/

theorem concatAll_append (a b : List String) :
    concatAll (a ++ b) = concatAll a ++ concatAll b := by
  induction a with
  | nil => simp [concatAll]
  | cons s rest ih => simp [concatAll, ih, String.append_assoc]

theorem emittedFor_append (pid : Nat) (xs ys : List (Nat × String)) :
    emittedFor pid (xs ++ ys) = emittedFor pid xs ++ emittedFor pid ys := by
  induction xs with
  | nil => simp [emittedFor]
  | cons pr rest ih =>
    by_cases h : pr.1 = pid <;> simp [emittedFor, h, ih, String.append_assoc]

theorem emittedFor_of_forall_ne (pid : Nat) (out : List (Nat × String))
    (h : ∀ pr ∈ out, pr.1 ≠ pid) : emittedFor pid out = "" := by
  induction out with
  | nil => rfl
  | cons pr rest ih =>
    have h1 : pr.1 ≠ pid := h pr (List.mem_cons_self _ _)
    simp only [emittedFor, if_neg h1]
    exact ih (fun q hq => h q (List.mem_cons_of_mem _ hq))

theorem envStepProc_pid (act : Nat × Bool) (p : ProcState) :
    (envStepProc act p).pid = p.pid := rfl

theorem envStepProc_remOut (act : Nat × Bool) (p : ProcState) :
    remOut (envStepProc act p) = remOut p := by
  have h := concatAll_append (p.pending.take (min act.1 p.pending.length))
      (p.pending.drop (min act.1 p.pending.length))
  rw [List.take_append_drop] at h
  show concatAll (p.buf ++ p.pending.take (min act.1 p.pending.length)) ++
      concatAll (p.pending.drop (min act.1 p.pending.length)) = remOut p
  rw [concatAll_append, String.append_assoc, ← h]
  rfl

theorem envStepProc_inv (act : Nat × Bool) (p : ProcState) (h : Inv p) :
    Inv (envStepProc act p) := by
  intro hex
  show p.pending.drop (min act.1 p.pending.length) = []
  have hex2 : (p.exited || (act.2 && (p.pending.drop (min act.1 p.pending.length)).isEmpty))
      = true := hex
  rcases Bool.or_eq_true_iff.mp hex2 with h1 | h1
  · rw [h h1]; simp
  · exact List.isEmpty_iff.mp (Bool.and_eq_true_iff.mp h1).2

theorem pids_cons (x : ProcState) (l : List ProcState) :
    pids (x :: l) = x.pid :: pids l := rfl

theorem pid_mem_pids {p : ProcState} {l : List ProcState} (h : p ∈ l) :
    p.pid ∈ pids l :=
  List.mem_map_of_mem ProcState.pid h

theorem nodup_pids_head {x : ProcState} {l : List ProcState}
    (h : (pids (x :: l)).Nodup) : x.pid ∉ pids l := by
  rw [pids_cons] at h
  exact (List.nodup_cons.mp h).1

theorem nodup_pids_tail {x : ProcState} {l : List ProcState}
    (h : (pids (x :: l)).Nodup) : (pids l).Nodup := by
  rw [pids_cons] at h
  exact (List.nodup_cons.mp h).2

theorem removePass_nil : removePass [] = ([], []) := rfl

theorem removePass_cons_live (p : ProcState) (rest : List ProcState)
    (hex : p.exited = false) :
    removePass (p :: rest) = (p :: (removePass rest).1, (removePass rest).2) := by
  rw [removePass.eq_def]
  simp [hex]

theorem removePass_exit_nil (p : ProcState) (hex : p.exited = true) :
    removePass [p] = ([], [(p.pid, concatAll p.buf)]) := by
  rw [removePass.eq_def]
  simp [hex]

theorem removePass_exit_cons (p q : ProcState) (rest2 : List ProcState)
    (hex : p.exited = true) :
    removePass (p :: q :: rest2) =
      (q :: (removePass rest2).1, (p.pid, concatAll p.buf) :: (removePass rest2).2) := by
  rw [removePass.eq_def]
  simp [hex]

theorem emittedFor_cons_self (pid : Nat) (s : String) (rest : List (Nat × String)) :
    emittedFor pid ((pid, s) :: rest) = s ++ emittedFor pid rest := by
  simp [emittedFor]

theorem emittedFor_cons_ne (pr : Nat × String) (pid : Nat) (rest : List (Nat × String))
    (h : pr.1 ≠ pid) : emittedFor pid (pr :: rest) = emittedFor pid rest := by
  simp [emittedFor, h]

theorem removePass_sublist : ∀ l : List ProcState, (removePass l).1.Sublist l
  | [] => by rw [removePass_nil]
  | p :: rest => by
    cases hex : p.exited with
    | false =>
      rw [removePass_cons_live p rest hex]
      exact (removePass_sublist rest).cons₂ p
    | true =>
      cases rest with
      | nil =>
        rw [removePass_exit_nil p hex]
        exact List.nil_sublist _
      | cons q rest2 =>
        rw [removePass_exit_cons p q rest2 hex]
        exact ((removePass_sublist rest2).cons₂ q).cons p

theorem removePass_out_pids : ∀ l : List ProcState, ∀ pr ∈ (removePass l).2, pr.1 ∈ pids l
  | [] => by rw [removePass_nil]; intro pr hpr; cases hpr
  | p :: rest => by
    intro pr hpr
    cases hex : p.exited with
    | false =>
      rw [removePass_cons_live p rest hex] at hpr
      rw [pids_cons]
      exact List.mem_cons_of_mem _ (removePass_out_pids rest pr hpr)
    | true =>
      cases rest with
      | nil =>
        rw [removePass_exit_nil p hex] at hpr
        rcases List.mem_singleton.mp hpr with rfl
        rw [pids_cons]
        exact List.mem_cons_self _ _
      | cons q rest2 =>
        rw [removePass_exit_cons p q rest2 hex] at hpr
        rcases List.mem_cons.mp hpr with rfl | h1
        · rw [pids_cons]
          exact List.mem_cons_self _ _
        · rw [pids_cons, pids_cons]
          exact List.mem_cons_of_mem _
            (List.mem_cons_of_mem _ (removePass_out_pids rest2 pr h1))

theorem removePass_keeps_live : ∀ (l : List ProcState) (p : ProcState),
    p ∈ l → p.exited = false → p ∈ (removePass l).1
  | [], p => by intro hp _; cases hp
  | x :: rest, p => by
    intro hp hlive
    cases hex : x.exited with
    | false =>
      rw [removePass_cons_live x rest hex]
      rcases List.mem_cons.mp hp with rfl | hp2
      · exact List.mem_cons_self _ _
      · exact List.mem_cons_of_mem _ (removePass_keeps_live rest p hp2 hlive)
    | true =>
      cases rest with
      | nil =>
        rcases List.mem_singleton.mp hp with rfl
        rw [hlive] at hex
        cases hex
      | cons q rest2 =>
        rw [removePass_exit_cons x q rest2 hex]
        rcases List.mem_cons.mp hp with rfl | hp2
        · rw [hlive] at hex
          cases hex
        · rcases List.mem_cons.mp hp2 with rfl | hp3
          · exact List.mem_cons_self _ _
          · exact List.mem_cons_of_mem _ (removePass_keeps_live rest2 p hp3 hlive)

theorem removePass_account : ∀ l : List ProcState, (pids l).Nodup → ∀ p ∈ l,
    (p ∈ (removePass l).1 ∧ emittedFor p.pid (removePass l).2 = "")
    ∨ (p.exited = true ∧ (∀ q ∈ (removePass l).1, q.pid ≠ p.pid)
        ∧ emittedFor p.pid (removePass l).2 = concatAll p.buf)
  | [] => by intro _ p hp; cases hp
  | x :: rest => by
    intro hnd p hp
    have hndr : (pids rest).Nodup := nodup_pids_tail hnd
    have hxnotin : x.pid ∉ pids rest := nodup_pids_head hnd
    cases hex : x.exited with
    | false =>
      rw [removePass_cons_live x rest hex]
      rcases List.mem_cons.mp hp with rfl | hp2
      · refine Or.inl ⟨List.mem_cons_self _ _, ?_⟩
        refine emittedFor_of_forall_ne _ _ (fun pr hpr hcon => hxnotin ?_)
        rw [← hcon]
        exact removePass_out_pids rest pr hpr
      · have hxne : x.pid ≠ p.pid := by
          intro hcon
          exact hxnotin (by rw [hcon]; exact pid_mem_pids hp2)
        rcases removePass_account rest hndr p hp2 with ⟨hmem, hemit⟩ | ⟨hpex, hall, hemit⟩
        · exact Or.inl ⟨List.mem_cons_of_mem _ hmem, hemit⟩
        · refine Or.inr ⟨hpex, ?_, hemit⟩
          intro q2 hq2
          rcases List.mem_cons.mp hq2 with rfl | hq3
          · exact hxne
          · exact hall q2 hq3
    | true =>
      cases rest with
      | nil =>
        rcases List.mem_singleton.mp hp with rfl
        rw [removePass_exit_nil _ hex]
        refine Or.inr ⟨hex, ?_, ?_⟩
        · intro q2 hq2
          cases hq2
        · rw [emittedFor_cons_self]
          simp [emittedFor]
      | cons q rest2 =>
        have hndr2 : (pids rest2).Nodup := nodup_pids_tail hndr
        have hqnotin : q.pid ∉ pids rest2 := nodup_pids_head hndr
        rw [removePass_exit_cons x q rest2 hex]
        rcases List.mem_cons.mp hp with rfl | hp2
        · -- the drained head itself
          refine Or.inr ⟨hex, ?_, ?_⟩
          · intro q2 hq2
            rcases List.mem_cons.mp hq2 with rfl | hq3
            · intro hcon
              exact hxnotin (by
                rw [← hcon]
                exact pid_mem_pids (List.mem_cons_self _ _))
            · intro hcon
              exact hxnotin (by
                rw [← hcon]
                exact pid_mem_pids
                  (List.mem_cons_of_mem _ ((removePass_sublist rest2).subset hq3)))
          · rw [emittedFor_cons_self]
            rw [emittedFor_of_forall_ne _ _ (fun pr hpr hcon => hxnotin (by
                rw [← hcon, pids_cons]
                exact List.mem_cons_of_mem _ (removePass_out_pids rest2 pr hpr))),
              String.append_empty]
        · rcases List.mem_cons.mp hp2 with rfl | hp3
          · -- the element skipped by the mutating iteration: kept unexamined
            refine Or.inl ⟨List.mem_cons_self _ _, ?_⟩
            have hne : x.pid ≠ p.pid := by
              intro hcon
              exact hxnotin (by rw [hcon]; exact pid_mem_pids (List.mem_cons_self _ _))
            rw [emittedFor_cons_ne _ _ _ hne]
            refine emittedFor_of_forall_ne _ _ (fun pr hpr hcon => hqnotin ?_)
            rw [← hcon]
            exact removePass_out_pids rest2 pr hpr
          · -- an element further down the list
            have hxne : x.pid ≠ p.pid := by
              intro hcon
              exact hxnotin (by
                rw [hcon]
                exact pid_mem_pids (List.mem_cons_of_mem _ hp3))
            rcases removePass_account rest2 hndr2 p hp3 with ⟨hmem, hemit⟩ | ⟨hpex, hall, hemit⟩
            · refine Or.inl ⟨List.mem_cons_of_mem _ hmem, ?_⟩
              rw [emittedFor_cons_ne _ _ _ hxne]
              exact hemit
            · refine Or.inr ⟨hpex, ?_, ?_⟩
              · intro q2 hq2
                rcases List.mem_cons.mp hq2 with rfl | hq3
                · intro hcon
                  exact hqnotin (by rw [hcon]; exact pid_mem_pids hp3)
                · exact hall q2 hq3
              · rw [emittedFor_cons_ne _ _ _ hxne]
                exact hemit

theorem readlineUpd_pid (p : ProcState) : (readlineUpd p).pid = p.pid := by
  unfold readlineUpd
  split <;> rfl

theorem readlineUpd_pending (p : ProcState) : (readlineUpd p).pending = p.pending := by
  unfold readlineUpd
  split <;> rfl

theorem readlineUpd_exited (p : ProcState) : (readlineUpd p).exited = p.exited := by
  unfold readlineUpd
  split <;> rfl

theorem readlineUpd_conserve (p : ProcState) :
    (if isReady p then p.buf.headD "" else "") ++ concatAll (readlineUpd p).buf
      = concatAll p.buf := by
  unfold readlineUpd
  by_cases h : isReady p
  · rw [if_pos h, if_pos h]
    cases hb : p.buf with
    | nil => simp [hb, concatAll]
    | cons s rest => simp [hb, concatAll]
  · rw [if_neg h, if_neg h]
    exact String.empty_append _

theorem readlineUpd_inv (p : ProcState) (h : Inv p) : Inv (readlineUpd p) := by
  intro hex
  rw [readlineUpd_pending]
  apply h
  rw [← readlineUpd_exited]
  exact hex

theorem pids_readPass (l : List ProcState) : pids (readPass l).1 = pids l := by
  show pids (l.map readlineUpd) = pids l
  unfold pids
  rw [List.map_map]
  exact List.map_congr_left (fun a _ => readlineUpd_pid a)

theorem readPass_out_pids (l : List ProcState) :
    ∀ pr ∈ (readPass l).2, pr.1 ∈ pids l := by
  intro pr hpr
  obtain ⟨p, hp, rfl⟩ := List.mem_map.mp hpr
  exact pid_mem_pids (List.mem_of_mem_filter hp)

theorem readPass_emit : ∀ l : List ProcState, (pids l).Nodup → ∀ p ∈ l,
    emittedFor p.pid (readPass l).2 = (if isReady p then p.buf.headD "" else "")
  | [] => by intro _ p hp; cases hp
  | x :: rest => by
    intro hnd p hp
    have hndr := nodup_pids_tail hnd
    have hxnotin := nodup_pids_head hnd
    show emittedFor p.pid
      (((x :: rest).filter isReady).map (fun q => (q.pid, q.buf.headD ""))) = _
    rcases List.mem_cons.mp hp with rfl | hp2
    · by_cases hr : isReady p
      · rw [List.filter_cons_of_pos hr, List.map_cons, emittedFor_cons_self,
          emittedFor_of_forall_ne _ _ (fun pr hpr hcon => hxnotin (by
            rw [← hcon]
            exact readPass_out_pids rest pr hpr)),
          String.append_empty, if_pos hr]
      · rw [List.filter_cons_of_neg hr, if_neg hr]
        exact emittedFor_of_forall_ne _ _ (fun pr hpr hcon => hxnotin (by
          rw [← hcon]
          exact readPass_out_pids rest pr hpr))
    · have hxne : x.pid ≠ p.pid := by
        intro hcon
        exact hxnotin (by rw [hcon]; exact pid_mem_pids hp2)
      by_cases hr : isReady x
      · rw [List.filter_cons_of_pos hr, List.map_cons, emittedFor_cons_ne _ _ _ hxne]
        exact readPass_emit rest hndr p hp2
      · rw [List.filter_cons_of_neg hr]
        exact readPass_emit rest hndr p hp2

theorem pids_envStep (act : Nat → Nat × Bool) (l : List ProcState) :
    pids (l.map (fun p => envStepProc (act p.pid) p)) = pids l := by
  unfold pids
  rw [List.map_map]
  rfl

theorem loopIter_procs (act : Nat → Nat × Bool) (procs : List ProcState) :
    (loopIter act procs).1 =
      (readPass (removePass (procs.map (fun p => envStepProc (act p.pid) p))).1).1 := rfl

theorem loopIter_out (act : Nat → Nat × Bool) (procs : List ProcState) :
    (loopIter act procs).2 =
      (removePass (procs.map (fun p => envStepProc (act p.pid) p))).2 ++
      (readPass (removePass (procs.map (fun p => envStepProc (act p.pid) p))).1).2 := rfl

theorem pids_loopIter_sublist (act : Nat → Nat × Bool) (procs : List ProcState) :
    (pids (loopIter act procs).1).Sublist (pids procs) := by
  rw [loopIter_procs, pids_readPass]
  have h2 := (removePass_sublist (procs.map (fun p => envStepProc (act p.pid) p))).map
    ProcState.pid
  have h3 := pids_envStep act procs
  unfold pids at h3 ⊢
  rw [h3] at h2
  exact h2

theorem nodup_pids_loopIter (act : Nat → Nat × Bool) (procs : List ProcState)
    (h : (pids procs).Nodup) : (pids (loopIter act procs).1).Nodup :=
  List.Nodup.sublist (pids_loopIter_sublist act procs) h

theorem inv_loopIter (act : Nat → Nat × Bool) (procs : List ProcState)
    (h : ∀ p ∈ procs, Inv p) : ∀ q ∈ (loopIter act procs).1, Inv q := by
  intro q hq
  rw [loopIter_procs] at hq
  obtain ⟨s, hs, rfl⟩ := List.mem_map.mp hq
  have hs2 : s ∈ procs.map (fun p => envStepProc (act p.pid) p) :=
    (removePass_sublist _).subset hs
  obtain ⟨u, hu, rfl⟩ := List.mem_map.mp hs2
  exact readlineUpd_inv _ (envStepProc_inv _ _ (h u hu))

theorem execLoopF_nil_procs (sched : List (Nat → Nat × Bool)) :
    execLoopF sched [] = some ([], []) := by
  cases sched <;> rfl

theorem execLoopF_nil_sched (p : ProcState) (ps : List ProcState) :
    execLoopF [] (p :: ps) = none := rfl

theorem execLoopF_cons (act : Nat → Nat × Bool) (sched : List (Nat → Nat × Bool))
    (p : ProcState) (ps : List ProcState) :
    execLoopF (act :: sched) (p :: ps) =
      match execLoopF sched (loopIter act (p :: ps)).1 with
      | none => none
      | some r => some ((loopIter act (p :: ps)).2 ++ r.1, r.2) := rfl

theorem execLoopF_out_pids : ∀ (sched : List (Nat → Nat × Bool)) (procs : List ProcState)
    (r : List (Nat × String) × List ProcState),
    execLoopF sched procs = some r → ∀ pr ∈ r.1, pr.1 ∈ pids procs
  | sched, [] => by
    intro r h pr hpr
    rw [execLoopF_nil_procs] at h
    obtain rfl := Option.some.inj h
    cases hpr
  | [], p :: ps => by
    intro r h
    rw [execLoopF_nil_sched] at h
    exact Option.noConfusion h
  | act :: sched, p :: ps => by
    intro r h pr hpr
    rw [execLoopF_cons] at h
    cases hrec : execLoopF sched (loopIter act (p :: ps)).1 with
    | none =>
      rw [hrec] at h
      exact Option.noConfusion h
    | some r2 =>
      rw [hrec] at h
      obtain rfl := Option.some.inj h
      rcases List.mem_append.mp hpr with h1 | h1
      · rw [loopIter_out] at h1
        rcases List.mem_append.mp h1 with h2 | h2
        · have h3 := removePass_out_pids _ pr h2
          rw [pids_envStep] at h3
          exact h3
        · have h3 := readPass_out_pids _ pr h2
          have hsub := (removePass_sublist ((p :: ps).map
            (fun q => envStepProc (act q.pid) q))).map ProcState.pid
          have h4 := hsub.subset h3
          have h5 := pids_envStep act (p :: ps)
          unfold pids at h5
          rw [h5] at h4
          exact h4
      · have h3 := execLoopF_out_pids sched _ r2 hrec pr h1
        exact (pids_loopIter_sublist act (p :: ps)).subset h3

theorem execLoopF_conserve : ∀ (sched : List (Nat → Nat × Bool)) (procs : List ProcState)
    (r : List (Nat × String) × List ProcState),
    (pids procs).Nodup → (∀ p ∈ procs, Inv p) →
    execLoopF sched procs = some r →
    ∀ p ∈ procs, emittedFor p.pid r.1 = remOut p
  | sched, [] => by
    intro r _ _ _ p hp
    cases hp
  | [], p0 :: ps => by
    intro r _ _ h
    rw [execLoopF_nil_sched] at h
    exact Option.noConfusion h
  | act :: sched, p0 :: ps => by
    intro r hnd hinv h p hp
    rw [execLoopF_cons] at h
    cases hrec : execLoopF sched (loopIter act (p0 :: ps)).1 with
    | none =>
      rw [hrec] at h
      exact Option.noConfusion h
    | some r2 =>
      rw [hrec] at h
      obtain rfl := Option.some.inj h
      show emittedFor p.pid ((loopIter act (p0 :: ps)).2 ++ r2.1) = remOut p
      rw [emittedFor_append, loopIter_out, emittedFor_append]
      have hp1 : envStepProc (act p.pid) p ∈
          (p0 :: ps).map (fun q => envStepProc (act q.pid) q) :=
        List.mem_map_of_mem _ hp
      have hnd1 : (pids ((p0 :: ps).map (fun q => envStepProc (act q.pid) q))).Nodup := by
        rw [pids_envStep]
        exact hnd
      have hinv1 : ∀ q ∈ (p0 :: ps).map (fun q => envStepProc (act q.pid) q), Inv q := by
        intro q hq
        obtain ⟨s, hs, rfl⟩ := List.mem_map.mp hq
        exact envStepProc_inv _ _ (hinv s hs)
      have hrem1 : remOut (envStepProc (act p.pid) p) = remOut p := envStepProc_remOut _ _
      rcases removePass_account _ hnd1 (envStepProc (act p.pid) p) hp1 with
        ⟨hmem, hemit⟩ | ⟨hpex, hall, hemit⟩
      · -- the child survives the removal pass of this iteration
        have hnd2 : (pids (removePass
            ((p0 :: ps).map (fun q => envStepProc (act q.pid) q))).1).Nodup :=
          List.Nodup.sublist ((removePass_sublist _).map ProcState.pid) hnd1
        have e2 := readPass_emit _ hnd2 (envStepProc (act p.pid) p) hmem
        have hmem3 : readlineUpd (envStepProc (act p.pid) p) ∈
            (readPass (removePass
              ((p0 :: ps).map (fun q => envStepProc (act q.pid) q))).1).1 :=
          List.mem_map_of_mem _ hmem
        have hnd3 : (pids (loopIter act (p0 :: ps)).1).Nodup :=
          nodup_pids_loopIter act (p0 :: ps) hnd
        have hinv3 : ∀ q ∈ (loopIter act (p0 :: ps)).1, Inv q :=
          inv_loopIter act (p0 :: ps) hinv
        have ih := execLoopF_conserve sched (loopIter act (p0 :: ps)).1 r2 hnd3 hinv3 hrec
          (readlineUpd (envStepProc (act p.pid) p)) (by rw [loopIter_procs]; exact hmem3)
        rw [readlineUpd_pid, envStepProc_pid] at ih
        rw [envStepProc_pid] at hemit e2
        rw [hemit, String.empty_append, e2, ih]
        unfold remOut
        rw [readlineUpd_pending, ← String.append_assoc, readlineUpd_conserve]
        exact hrem1
      · -- the child was drained and removed by the removal pass
        have e2 : emittedFor p.pid (readPass (removePass
            ((p0 :: ps).map (fun q => envStepProc (act q.pid) q))).1).2 = "" := by
          refine emittedFor_of_forall_ne _ _ (fun pr hpr hcon => ?_)
          have h3 := readPass_out_pids _ pr hpr
          obtain ⟨q, hq, hqe⟩ := List.mem_map.mp h3
          refine hall q hq ?_
          rw [hqe, hcon]
          rfl
        have e3 : emittedFor p.pid r2.1 = "" := by
          refine emittedFor_of_forall_ne _ _ (fun pr hpr hcon => ?_)
          have h3 := execLoopF_out_pids sched _ r2 hrec pr hpr
          rw [loopIter_procs, pids_readPass] at h3
          obtain ⟨q, hq, hqe⟩ := List.mem_map.mp h3
          refine hall q hq ?_
          rw [hqe, hcon]
          rfl
        rw [envStepProc_pid] at hemit
        rw [hemit, e2, e3, String.append_empty, String.append_empty, ← hrem1]
        unfold remOut
        rw [hinv1 _ hp1 hpex]
        show concatAll (envStepProc (act p.pid) p).buf =
          concatAll (envStepProc (act p.pid) p).buf ++ concatAll []
        rw [show concatAll [] = "" from rfl, String.append_empty]

theorem execLoopF_final : ∀ (sched : List (Nat → Nat × Bool)) (procs : List ProcState)
    (r : List (Nat × String) × List ProcState),
    execLoopF sched procs = some r → r.2 = []
  | sched, [] => by
    intro r h
    rw [execLoopF_nil_procs] at h
    obtain rfl := Option.some.inj h
    rfl
  | [], p :: ps => by
    intro r h
    rw [execLoopF_nil_sched] at h
    exact Option.noConfusion h
  | act :: sched, p :: ps => by
    intro r h
    rw [execLoopF_cons] at h
    cases hrec : execLoopF sched (loopIter act (p :: ps)).1 with
    | none =>
      rw [hrec] at h
      exact Option.noConfusion h
    | some r2 =>
      rw [hrec] at h
      obtain rfl := Option.some.inj h
      exact execLoopF_final sched _ r2 hrec

theorem mapME_ok_mem {α β ε : Type} (f : α → Except ε β) :
    ∀ (l : List α) (res : List β), mapME f l = .ok res → ∀ a ∈ l, ∃ b, f a = .ok b
  | [], res => by
    intro _ a ha
    cases ha
  | a0 :: l, res => by
    intro h a ha
    simp only [mapME] at h
    split at h
    · exact Except.noConfusion h
    · rename_i b hfa
      split at h
      · exact Except.noConfusion h
      · rename_i bs hrest
        rcases List.mem_cons.mp ha with rfl | ha2
        · exact ⟨b, hfa⟩
        · exact mapME_ok_mem f l bs hrest a ha2

theorem mapME_ok_length {α β ε : Type} (f : α → Except ε β) :
    ∀ (l : List α) (res : List β), mapME f l = .ok res → res.length = l.length
  | [], res => by
    intro h
    obtain rfl := Except.ok.inj h.symm
    rfl
  | a0 :: l, res => by
    intro h
    simp only [mapME] at h
    split at h
    · exact Except.noConfusion h
    · rename_i b hfa
      split at h
      · exact Except.noConfusion h
      · rename_i bs hrest
        obtain rfl := Except.ok.inj h.symm
        simp only [List.length_cons]
        rw [mapME_ok_length f l bs hrest]

theorem spawnAllFrom_pids (avail : List String) : ∀ (cmds : List (List String)) (i : Nat),
    (spawnAllFrom avail i cmds).1 =
      (List.range (okPrefixLen avail cmds)).map (fun j => basePid + (i + j))
  | [], i => by simp [spawnAllFrom, okPrefixLen]
  | argv :: rest, i => by
    by_cases h : spawnOk avail argv
    · simp only [spawnAllFrom, okPrefixLen, h, if_true]
      rw [spawnAllFrom_pids avail rest (i + 1), List.range_succ_eq_map, List.map_cons,
        List.map_map]
      refine List.cons_eq_cons.mpr ⟨?_, ?_⟩
      · show basePid + i = basePid + (i + 0)
        omega
      · apply List.map_congr_left
        intro j _
        show basePid + (i + 1 + j) = basePid + (i + (j + 1))
        omega
    · simp [spawnAllFrom, okPrefixLen, h]

theorem spawnAllFrom_ok_len (avail : List String) : ∀ (cmds : List (List String)) (i : Nat),
    (spawnAllFrom avail i cmds).2 = true → okPrefixLen avail cmds = cmds.length
  | [], _ => by
    intro _
    rfl
  | argv :: rest, i => by
    intro h
    by_cases hok : spawnOk avail argv
    · simp only [spawnAllFrom, hok, if_true] at h
      simp only [okPrefixLen, hok, if_true, List.length_cons]
      rw [spawnAllFrom_ok_len avail rest (i + 1) h]
    · simp [spawnAllFrom, hok] at h

theorem spawnAll_ok_pids (avail : List String) (cmds : List (List String))
    (h : (spawnAll avail cmds).2 = true) :
    (spawnAll avail cmds).1 = (List.range cmds.length).map (fun i => basePid + i) := by
  unfold spawnAll at h ⊢
  rw [spawnAllFrom_pids avail cmds 0, spawnAllFrom_ok_len avail cmds 0 h]
  apply List.map_congr_left
  intro j _
  omega

theorem pids_initProcs (behavior : Nat → List String) (n : Nat) :
    pids (initProcs behavior n) = (List.range n).map (fun i => basePid + i) := by
  unfold pids initProcs
  rw [List.map_map]
  rfl

theorem nodup_pids_initProcs (behavior : Nat → List String) (n : Nat) :
    (pids (initProcs behavior n)).Nodup := by
  rw [pids_initProcs]
  exact (List.nodup_range n).map (fun a b hab => by omega)

theorem mem_initProcs (behavior : Nat → List String) (n i : Nat) (h : i < n) :
    ({ pid := basePid + i, pending := behavior i, buf := [], exited := false } : ProcState)
      ∈ initProcs behavior n := by
  unfold initProcs
  exact List.mem_map_of_mem _ (List.mem_range.mpr h)

theorem inv_initProcs (behavior : Nat → List String) (n : Nat) :
    ∀ p ∈ initProcs behavior n, Inv p := by
  intro p hp
  obtain ⟨i, _, rfl⟩ := List.mem_map.mp hp
  intro hex
  exact Bool.noConfusion hex

theorem loopIter_keeps_live (act : Nat → Nat × Bool) (procs : List ProcState)
    (p : ProcState) (hp : p ∈ procs)
    (hlive : (envStepProc (act p.pid) p).exited = false) :
    (envStepProc (act p.pid) p).pid ∈ pids (loopIter act procs).1 := by
  rw [loopIter_procs, pids_readPass]
  exact pid_mem_pids (removePass_keeps_live _ _ (List.mem_map_of_mem _ hp) hlive)

theorem execute_malformed_of_tokerr (avail : List String) (behavior : Nat → List String)
    (sched : List (Nat → Nat × Bool)) (commands : List String) (debug : Bool) (e : TokErr)
    (h : tokenizeAll commands = .error e) :
    execute avail behavior sched commands debug = .malformed := by
  unfold execute
  rw [h]

theorem execute_debug_of_ok (avail : List String) (behavior : Nat → List String)
    (sched : List (Nat → Nat × Bool)) (commands : List String) (toks : List (List String))
    (h : tokenizeAll commands = .ok toks) :
    execute avail behavior sched commands true = .debugged (toks.map pyListRepr) := by
  unfold execute
  rw [h]
  rfl

theorem execute_run_of_ok (avail : List String) (behavior : Nat → List String)
    (sched : List (Nat → Nat × Bool)) (commands : List String) (toks : List (List String))
    (h : tokenizeAll commands = .ok toks) :
    execute avail behavior sched commands false =
      (if (spawnAll avail toks).2 then
        match execLoopF sched (initProcs behavior toks.length) with
        | none => ExecOutcome.incomplete (spawnAll avail toks).1
        | some r => ExecOutcome.completed (spawnAll avail toks).1 r.1
      else ExecOutcome.spawnFailed (spawnAll avail toks).1) := by
  unfold execute
  rw [h]
  rfl

theorem execute_completed_inv (avail : List String) (behavior : Nat → List String)
    (sched : List (Nat → Nat × Bool)) (commands : List String) (toks : List (List String))
    (spawned : List Nat) (out : List (Nat × String))
    (htok : tokenizeAll commands = .ok toks)
    (hrun : execute avail behavior sched commands false = .completed spawned out) :
    ∃ r, execLoopF sched (initProcs behavior toks.length) = some r ∧ r.1 = out ∧
      spawned = (spawnAll avail toks).1 ∧ (spawnAll avail toks).2 = true := by
  rw [execute_run_of_ok avail behavior sched commands toks htok] at hrun
  by_cases hsp : (spawnAll avail toks).2
  · rw [if_pos hsp] at hrun
    cases hrec : execLoopF sched (initProcs behavior toks.length) with
    | none =>
      rw [hrec] at hrun
      exact ExecOutcome.noConfusion hrun
    | some r =>
      rw [hrec] at hrun
      have hinj := ExecOutcome.completed.inj hrun
      exact ⟨r, rfl, hinj.2, hinj.1.symm, hsp⟩
  · rw [if_neg hsp] at hrun
    exact ExecOutcome.noConfusion hrun

/- ----------------------------------------------- -/
/- Claim theorems.                                  -/
/- ----------------------------------------------- -/

/-- C1: for every valid command set that execute runs to completion, the
per-line reads of ready streams plus the final read-to-end drain deliver
each child's full output exactly once and in the child's own order: the
concatenation of the combined-output fragments attributed to child i is
exactly the output child i wrote, and every fragment of the combined
output belongs to a spawned child.  This holds for every schedule of
child writes and exits under which the loop finishes. -/
theorem claim1_child_output_exact_once (avail : List String)
    (behavior : Nat → List String) (sched : List (Nat → Nat × Bool))
    (commands : List String) (toks : List (List String)) (spawned : List Nat)
    (out : List (Nat × String))
    (htok : tokenizeAll commands = Except.ok toks)
    (hrun : execute avail behavior sched commands false = ExecOutcome.completed spawned out) :
    (∀ i, i < toks.length → emittedFor (basePid + i) out = concatAll (behavior i))
    ∧ ∀ pr ∈ out, pr.1 ∈ spawned := by
  obtain ⟨r, hrec, hout, hsp, hspok⟩ :=
    execute_completed_inv avail behavior sched commands toks spawned out htok hrun
  constructor
  · intro i hi
    have hcons := execLoopF_conserve sched (initProcs behavior toks.length) r
      (nodup_pids_initProcs behavior toks.length) (inv_initProcs behavior toks.length) hrec
      { pid := basePid + i, pending := behavior i, buf := [], exited := false }
      (mem_initProcs behavior toks.length i hi)
    rw [hout] at hcons
    have h2 : emittedFor (basePid + i) out =
        remOut { pid := basePid + i, pending := behavior i, buf := [], exited := false } :=
      hcons
    rw [h2]
    show "" ++ concatAll (behavior i) = concatAll (behavior i)
    exact String.empty_append _
  · intro pr hpr
    have h3 := execLoopF_out_pids sched (initProcs behavior toks.length) r hrec pr
      (by rw [hout]; exact hpr)
    rw [pids_initProcs] at h3
    rw [hsp, spawnAll_ok_pids avail toks hspok]
    exact h3

/-- Witness for C1: a concrete one-child run that completes, with the
combined output equal to exactly the child's one line. -/
theorem claim1_witness :
    tokenizeAll ["echo hello"] = Except.ok [["echo", "hello"]]
    ∧ execute ["echo"] oneChildBehavior oneChildSched ["echo hello"] false
        = ExecOutcome.completed [1000] [(1000, "hello\n")]
    ∧ emittedFor (basePid + 0) [(1000, "hello\n")] = concatAll (oneChildBehavior 0) :=
  ⟨rfl, rfl,
    (claim1_child_output_exact_once ["echo"] oneChildBehavior oneChildSched ["echo hello"]
      [["echo", "hello"]] [1000] [(1000, "hello\n")] rfl rfl).1 0 (by decide)⟩

/-- C4: a batch containing a command with an unterminated quote makes
execute fail with the tokenization error before anything is spawned,
whatever the position of the bad command, the other commands, the debug
flag, the executables available or the schedule; tokenization itself is a
pure function of the command strings (it is modelled as one). -/
theorem claim4_unterminated_quote_fails_before_spawn (avail : List String)
    (behavior : Nat → List String) (sched : List (Nat → Nat × Bool))
    (commands : List String) (debug : Bool) (c : String)
    (hc : c ∈ commands) (herr : shlexSplit c = Except.error TokErr.noClosingQuotation) :
    execute avail behavior sched commands debug = ExecOutcome.malformed := by
  cases htok : tokenizeAll commands with
  | error e => exact execute_malformed_of_tokerr avail behavior sched commands debug e htok
  | ok toks =>
    obtain ⟨b, hb⟩ := mapME_ok_mem shlexSplit commands toks htok c hc
    rw [herr] at hb
    exact Except.noConfusion hb

/-- Witness for C4: a two-command batch whose second command has an
unterminated single quote. -/
theorem claim4_witness :
    badQuoteCmd ∈ ["echo ok", badQuoteCmd]
    ∧ shlexSplit badQuoteCmd = Except.error TokErr.noClosingQuotation
    ∧ execute [] (fun _ => []) [] ["echo ok", badQuoteCmd] true = ExecOutcome.malformed :=
  ⟨List.mem_cons_of_mem _ (List.mem_cons_self _ _), rfl,
    claim4_unterminated_quote_fails_before_spawn [] (fun _ => []) [] ["echo ok", badQuoteCmd]
      true badQuoteCmd (List.mem_cons_of_mem _ (List.mem_cons_self _ _)) rfl⟩

/-- C7: pids in the process table stay pairwise distinct across an
iteration of the loop; the loop returns exactly when the table is empty
(its final table is always empty, and an empty table returns at once);
and a child that has not exited survives the iteration. -/
theorem claim7_table_unique_and_complete_iff_empty (procs : List ProcState)
    (sched : List (Nat → Nat × Bool)) (hnd : (pids procs).Nodup) :
    (∀ act, (pids (loopIter act procs).1).Nodup)
    ∧ (∀ r, execLoopF sched procs = some r → r.2 = [])
    ∧ (procs = [] → execLoopF sched procs = some ([], []))
    ∧ (∀ act p, p ∈ procs → (envStepProc (act p.pid) p).exited = false →
        (envStepProc (act p.pid) p).pid ∈ pids (loopIter act procs).1) :=
  ⟨fun act => nodup_pids_loopIter act procs hnd,
    fun r h => execLoopF_final sched procs r h,
    fun h => by rw [h]; exact execLoopF_nil_procs sched,
    fun act p hp hlive => loopIter_keeps_live act procs p hp hlive⟩

/-- Witness for C7 at a concrete one-child table: the completed run ends
with the empty table. -/
theorem claim7_witness :
    (pids [{ pid := 1000, pending := ["hello\n"], buf := [], exited := false }]).Nodup
    ∧ (([(1000, "hello\n")], ([] : List ProcState)).2 = []) :=
  ⟨by decide,
    (claim7_table_unique_and_complete_iff_empty
      [{ pid := 1000, pending := ["hello\n"], buf := [], exited := false }]
      oneChildSched (by decide)).2.1 ([(1000, "hello\n")], []) rfl⟩

/-- C8: calling pproc.pprint raises NameError for every argument, because
its body reads the name p while its parameter is proc and no enclosing
scope binds p. -/
theorem claim8_pprint_raises_name_error (proc : ProcState) :
    pprint proc = Except.error PyErr.nameError := rfl

/-- C9: requires.parse raises NameError on every dependency string that
starts with -e or --editable, because both editable branches read the
unbound name line. -/
theorem claim9_parse_editable_raises_name_error (dep : String)
    (h : (pyStartsWith dep "-e" || pyStartsWith dep "--editable") = true) :
    parse dep = Except.error PyErr.nameError := by
  unfold parse
  rw [if_pos h, if_neg (by decide : ¬ (resolvesGlobal requiresGlobals "line" = true))]

/-- Witness for C9 at a concrete editable requirement. -/
theorem claim9_witness :
    (pyStartsWith "-e git+https://github.com/example/repo.git" "-e"
      || pyStartsWith "-e git+https://github.com/example/repo.git" "--editable") = true
    ∧ parse "-e git+https://github.com/example/repo.git" = Except.error PyErr.nameError :=
  ⟨by decide, claim9_parse_editable_raises_name_error
    "-e git+https://github.com/example/repo.git" (by decide)⟩

/-- C10: pwgen password generation is deterministic in the Generate.handle
inputs: with equal domain, salt, master password and device flag (and an
equal device UUID whenever the flag is set) the encoded passwords agree,
and the result is always the base64 encoding of the SHA-256 digest of the
concatenated base string. -/
theorem claim10_generate_deterministic (domain salt master u1 u2 : String) (device : Bool)
    (h : device = true → u1 = u2) :
    generateHandle domain salt master u1 device = generateHandle domain salt master u2 device
    ∧ generateHandle domain salt master u1 device
        = encodePassword (baseStringSpec domain salt master u1 device) := by
  cases device with
  | false =>
    refine ⟨rfl, ?_⟩
    show encodePassword (domain ++ salt ++ master)
      = encodePassword (domain ++ salt ++ master ++ "")
    rw [String.append_empty]
  | true =>
    rw [h rfl]
    exact ⟨rfl, rfl⟩

/-- Witness for C10 at concrete generation inputs with the device flag
set. -/
theorem claim10_witness :
    ((true : Bool) = true → ("device-uuid" : String) = "device-uuid")
    ∧ (generateHandle "example.com" "01" "hunter2" "device-uuid" true
        = generateHandle "example.com" "01" "hunter2" "device-uuid" true
      ∧ generateHandle "example.com" "01" "hunter2" "device-uuid" true
        = encodePassword (baseStringSpec "example.com" "01" "hunter2" "device-uuid" true)) :=
  ⟨fun _ => rfl, claim10_generate_deterministic "example.com" "01" "hunter2"
    "device-uuid" "device-uuid" true (fun _ => rfl)⟩

/-- C2 counterexample: with three commands of which the second cannot be
spawned, execute aborts at the spawn stage: only the first command was
spawned (pid 1000), the third is never attempted, no loop runs and no
output is produced — refuting the claim that the remaining commands still
run to completion with their output in the combined stream. -/
theorem claim2_counterexample :
    execute ["echo"] (fun _ => ["x\n"]) [] ["echo a", "nosuch", "echo b"] false
      = ExecOutcome.spawnFailed [1000] := rfl

/-- C2 amended: when any spawn fails, the list comprehension at line 71
aborts: exactly the commands before the first failure have been spawned
(and are abandoned, never drained), the later commands are never spawned,
and the exception propagates out of execute, so the run produces no
combined output and exits non-zero via parser.error. -/
theorem claim2_amended_spawn_failure_aborts (avail : List String)
    (behavior : Nat → List String) (sched : List (Nat → Nat × Bool))
    (commands : List String) (toks : List (List String))
    (htok : tokenizeAll commands = Except.ok toks)
    (hfail : (spawnAll avail toks).2 = false) :
    execute avail behavior sched commands false
      = ExecOutcome.spawnFailed (spawnAll avail toks).1
    ∧ (spawnAll avail toks).1
      = (List.range (okPrefixLen avail toks)).map (fun j => basePid + j) := by
  constructor
  · rw [execute_run_of_ok avail behavior sched commands toks htok,
      if_neg (by intro hcon; rw [hfail] at hcon; exact Bool.noConfusion hcon)]
  · show (spawnAllFrom avail 0 toks).1 = _
    rw [spawnAllFrom_pids avail toks 0]
    apply List.map_congr_left
    intro j _
    omega

/-- Witness for C2 amended: echo resolves, nosuch does not. -/
theorem claim2_witness :
    tokenizeAll ["echo a", "nosuch"] = Except.ok [["echo", "a"], ["nosuch"]]
    ∧ (spawnAll ["echo"] [["echo", "a"], ["nosuch"]]).2 = false
    ∧ execute ["echo"] (fun _ => ["x\n"]) [] ["echo a", "nosuch"] false
        = ExecOutcome.spawnFailed (spawnAll ["echo"] [["echo", "a"], ["nosuch"]]).1 :=
  ⟨rfl, rfl,
    (claim2_amended_spawn_failure_aborts ["echo"] (fun _ => ["x\n"]) [] ["echo a", "nosuch"]
      [["echo", "a"], ["nosuch"]] rfl rfl).1⟩

/-- C3 (code bug): the removal pass iterates the list while calling
procs.remove(p), so when two adjacent processes have both already exited,
the second one is skipped by the pass: it is still in the process list
handed to select in the very same iteration, although its exit was
already detectable.  Here both children have exited; only pid 1000 is
drained and removed, while the exited pid 1001 with buffered output
survives the pass. -/
theorem claim3_skipped_exited_process_reaches_select :
    removePass [{ pid := 1000, pending := [], buf := ["a\n"], exited := true },
        { pid := 1001, pending := [], buf := ["tail\n"], exited := true }]
      = ([{ pid := 1001, pending := [], buf := ["tail\n"], exited := true }],
        [(1000, "a\n")])
    ∧ ({ pid := 1001, pending := [], buf := ["tail\n"], exited := true } : ProcState).exited
      = true := ⟨rfl, rfl⟩

/-- C5 counterexample: with a single command carrying an unterminated
quote, execute in debug mode does not print an argv representation per
command and return — tokenization fails first, so the run is malformed
(the program exits non-zero), refuting the claim for arbitrary command
lists. -/
theorem claim5_counterexample :
    execute [] (fun _ => []) [] [badQuoteCmd] true = ExecOutcome.malformed := rfl

/-- C5 amended: for every command list all of whose commands tokenize,
execute with debug set prints exactly one argv repr per input command, in
input order, spawns nothing and returns (so the program exits 0); a
command list with a tokenization error fails before printing anything. -/
theorem claim5_amended_debug_prints (avail : List String) (behavior : Nat → List String)
    (sched : List (Nat → Nat × Bool)) (commands : List String) (toks : List (List String))
    (htok : tokenizeAll commands = Except.ok toks) :
    execute avail behavior sched commands true = ExecOutcome.debugged (toks.map pyListRepr)
    ∧ (toks.map pyListRepr).length = commands.length := by
  refine ⟨execute_debug_of_ok avail behavior sched commands toks htok, ?_⟩
  rw [List.length_map]
  exact mapME_ok_length shlexSplit commands toks htok

/-- Witness for C5 amended at the example of the spec: two well-quoted
commands produce exactly two argv representations in input order. -/
theorem claim5_witness :
    tokenizeAll ["echo hello", debugCmd2]
      = Except.ok [["echo", "hello"], ["echo", "a b", "c"]]
    ∧ execute [] (fun _ => []) [] ["echo hello", debugCmd2] true
        = ExecOutcome.debugged ([["echo", "hello"], ["echo", "a b", "c"]].map pyListRepr)
    ∧ ([["echo", "hello"], ["echo", "a b", "c"]].map pyListRepr).length
        = (["echo hello", debugCmd2] : List String).length :=
  ⟨rfl,
    (claim5_amended_debug_prints [] (fun _ => []) [] ["echo hello", debugCmd2]
      [["echo", "hello"], ["echo", "a b", "c"]] rfl).1,
    (claim5_amended_debug_prints [] (fun _ => []) [] ["echo hello", debugCmd2]
      [["echo", "hello"], ["echo", "a b", "c"]] rfl).2⟩

/-- The debug branch renders argv exactly as the repr text the spec
quotes, single quotes included. -/
theorem pyListRepr_debug_example :
    pyListRepr ["echo", "hello"] =
      "[" ++ String.singleton squote ++ "echo" ++ String.singleton squote ++ ", "
        ++ String.singleton squote ++ "hello" ++ String.singleton squote ++ "]"
    ∧ pyListRepr ["echo", "a b", "c"] =
      "[" ++ String.singleton squote ++ "echo" ++ String.singleton squote ++ ", "
        ++ String.singleton squote ++ "a b" ++ String.singleton squote ++ ", "
        ++ String.singleton squote ++ "c" ++ String.singleton squote ++ "]" := by
  exact ⟨by decide, by decide⟩

/-- C6 counterexample: a completed two-child run in which both children
write the identical line.  The printed fragments are the raw child text:
the fragment of pid 1000 does not even contain the digits of its pid
(taggedWithPid is false, and a fortiori it is not in the pprint tag
format), and the two fragments with equal text come from different pids,
so the printed text alone cannot attribute fragments to processes —
refuting tagged-or-attributable. -/
theorem claim6_counterexample :
    execute ["echo"] sameBehavior sameSched ["echo same", "echo same"] false
      = ExecOutcome.completed [1000, 1001]
          [(1000, "same\n"), (1001, "same\n"), (1001, "")]
    ∧ taggedWithPid 1000 "same\n" = false
    ∧ "same\n" ≠ pprintTag 1000 "same\n" :=
  ⟨rfl, by decide, by decide⟩

/-- C6 amended: each fragment of the combined output is, in its entirety,
output of a single spawned child, written by one print call of the
single-threaded loop (so fragments never interleave); but the fragment is
printed raw, with no pid tag, and is not attributable to its process from
the output text (the tagging helper pprint is defective and never
called). -/
theorem claim6_amended_fragments_single_origin (avail : List String)
    (behavior : Nat → List String) (sched : List (Nat → Nat × Bool))
    (commands : List String) (toks : List (List String)) (spawned : List Nat)
    (out : List (Nat × String))
    (htok : tokenizeAll commands = Except.ok toks)
    (hrun : execute avail behavior sched commands false = ExecOutcome.completed spawned out) :
    ∀ pr ∈ out, pr.1 ∈ spawned := by
  obtain ⟨r, hrec, hout, hsp, hspok⟩ :=
    execute_completed_inv avail behavior sched commands toks spawned out htok hrun
  intro pr hpr
  have h3 := execLoopF_out_pids sched (initProcs behavior toks.length) r hrec pr
    (by rw [hout]; exact hpr)
  rw [pids_initProcs] at h3
  rw [hsp, spawnAll_ok_pids avail toks hspok]
  exact h3

/-- Witness for C6 amended: in the concrete two-child run, the first
fragment belongs to the spawned child 1000. -/
theorem claim6_witness :
    tokenizeAll ["echo same", "echo same"] = Except.ok [["echo", "same"], ["echo", "same"]]
    ∧ execute ["echo"] sameBehavior sameSched ["echo same", "echo same"] false
        = ExecOutcome.completed [1000, 1001]
            [(1000, "same\n"), (1001, "same\n"), (1001, "")]
    ∧ (1000 : Nat) ∈ [1000, 1001] :=
  ⟨rfl, rfl,
    claim6_amended_fragments_single_origin ["echo"] sameBehavior sameSched
      ["echo same", "echo same"] [["echo", "same"], ["echo", "same"]] [1000, 1001]
      [(1000, "same\n"), (1001, "same\n"), (1001, "")] rfl rfl
      (1000, "same\n") (by decide)⟩

end Toolkit
